import Mathlib

/-!
Verification of the numeric core of PROJETO_C213 (`models/pid_model.py`):
data ingestion and step detection (`load_data`), FOPDT identification
(`run_identification`), PID tuning (`calculate_pid_tuning`), closed-loop
simulation (`simulate_closed_loop`) and step-response metrics
(`calculate_metrics`).

Modelling conventions:
* Python/numpy floats are idealised as exact rationals extended with the
  IEEE special values `inf`, `ninf` and `nan` (type `Vq`).  All comparisons
  follow IEEE semantics (every comparison with `nan` is false, except `!=`
  which is true).
* The tuning formulas involve real powers (ITAE uses `r ** -0.85`), so the
  tuning calculator is embedded over an extended-real variant `Rv` of the
  same idealisation.
* Calls into the `control` library (`step_response` on an
  assembled transfer function) are modelled as explicit function
  parameters; theorems that need a property of the library state it as a
  hypothesis taken from the library's documented LTI semantics.
-/

namespace C213

/-- Idealised float value: an exact rational or one of the IEEE special
values. -/
inductive Vq where
  | fin (q : ℚ)
  | inf
  | ninf
  | nan
deriving DecidableEq

namespace Vq

/-- IEEE finiteness test (`np.isfinite`). -/
def isFiniteb : Vq → Bool
  | fin _ => true
  | _ => false

/-- Underlying rational of a finite value (junk `0` on specials; only
applied under finiteness guards, mirroring the source). -/
def toQ : Vq → ℚ
  | fin q => q
  | _ => 0

/-- IEEE negation. -/
def neg : Vq → Vq
  | fin q => fin (-q)
  | inf => ninf
  | ninf => inf
  | nan => nan

/-- IEEE addition. -/
def add : Vq → Vq → Vq
  | nan, _ => nan
  | _, nan => nan
  | fin a, fin b => fin (a + b)
  | fin _, inf => inf
  | fin _, ninf => ninf
  | inf, fin _ => inf
  | ninf, fin _ => ninf
  | inf, inf => inf
  | ninf, ninf => ninf
  | inf, ninf => nan
  | ninf, inf => nan

/-- IEEE subtraction. -/
def sub (a b : Vq) : Vq := a.add b.neg

/-- IEEE multiplication (`0 * inf = nan`). -/
def mul : Vq → Vq → Vq
  | nan, _ => nan
  | _, nan => nan
  | fin a, fin b => fin (a * b)
  | fin a, inf => if 0 < a then inf else if a < 0 then ninf else nan
  | fin a, ninf => if 0 < a then ninf else if a < 0 then inf else nan
  | inf, fin b => if 0 < b then inf else if b < 0 then ninf else nan
  | ninf, fin b => if 0 < b then ninf else if b < 0 then inf else nan
  | inf, inf => inf
  | inf, ninf => ninf
  | ninf, inf => ninf
  | ninf, ninf => inf

/-- IEEE division (numpy semantics: division of a nonzero finite value by
zero yields a signed infinity, `0/0` yields `nan`). -/
def div : Vq → Vq → Vq
  | nan, _ => nan
  | _, nan => nan
  | fin a, fin b =>
      if b = 0 then (if a = 0 then nan else if 0 < a then inf else ninf)
      else fin (a / b)
  | fin _, inf => fin 0
  | fin _, ninf => fin 0
  | inf, fin b => if 0 ≤ b then inf else ninf
  | ninf, fin b => if 0 ≤ b then ninf else inf
  | inf, inf => nan
  | inf, ninf => nan
  | ninf, inf => nan
  | ninf, ninf => nan

/-- IEEE absolute value. -/
def absV : Vq → Vq
  | fin q => fin |q|
  | inf => inf
  | ninf => inf
  | nan => nan

/-- IEEE strict less-than (false whenever a `nan` is involved). -/
def ltb : Vq → Vq → Bool
  | nan, _ => false
  | _, nan => false
  | fin a, fin b => decide (a < b)
  | fin _, inf => true
  | fin _, ninf => false
  | inf, fin _ => false
  | ninf, fin _ => true
  | inf, inf => false
  | ninf, ninf => false
  | ninf, inf => true
  | inf, ninf => false

/-- IEEE less-or-equal (false whenever a `nan` is involved). -/
def leb : Vq → Vq → Bool
  | nan, _ => false
  | _, nan => false
  | fin a, fin b => decide (a ≤ b)
  | fin _, inf => true
  | fin _, ninf => false
  | inf, fin _ => false
  | ninf, fin _ => true
  | inf, inf => true
  | ninf, ninf => true
  | ninf, inf => true
  | inf, ninf => false

/-- IEEE inequality test (`!=`): true whenever a `nan` is involved. -/
def neb : Vq → Vq → Bool
  | nan, _ => true
  | _, nan => true
  | fin a, fin b => decide (a ≠ b)
  | inf, inf => false
  | ninf, ninf => false
  | inf, ninf => true
  | ninf, inf => true
  | inf, fin _ => true
  | ninf, fin _ => true
  | fin _, inf => true
  | fin _, ninf => true

/-- numpy pairwise maximum as used by `np.max` reduction: propagates
`nan`. -/
def npmax (a b : Vq) : Vq :=
  if a = nan ∨ b = nan then nan else if ltb a b then b else a

/-- numpy `np.max` over a vector (the empty case is unreachable behind the
source's guards; modelled as `nan`). -/
def listMax : List Vq → Vq
  | [] => nan
  | x :: xs => xs.foldl npmax x

end Vq

/-- Basic sanity checks of the IEEE idealisation. -/
example : Vq.mul (Vq.fin 0) Vq.inf = Vq.nan := by decide
example : Vq.div (Vq.fin 1) (Vq.fin 0) = Vq.inf := by decide
example : Vq.div (Vq.fin 0) (Vq.fin 0) = Vq.nan := by decide
example : Vq.ltb Vq.nan Vq.nan = false := by decide
example : Vq.leb Vq.inf Vq.inf = true := by decide

/-! ### Generic list helpers used by the pipeline -/

/-- Python slicing `l[a:b]` for `0 ≤ a ≤ b`. -/
def slice (l : List α) (a b : ℕ) : List α := (l.take b).drop a

/-- Python trailing slice `l[-n:]` for `n ≥ 1`. -/
def lastN (l : List α) (n : ℕ) : List α := l.drop (l.length - n)

/-- Insertion of an element into a list sorted by a rational key (stable:
equal keys keep the existing element first). -/
def insertByKey (key : α → ℚ) (x : α) : List α → List α
  | [] => [x]
  | y :: ys => if key y ≤ key x then y :: insertByKey key x ys else x :: y :: ys

/-- Stable sort by a rational key.  `np.argsort` is used by the source to
order samples by time; its tie order is unspecified, and every property
proved below is independent of the order of equal keys. -/
def sortByKey (key : α → ℚ) : List α → List α
  | [] => []
  | x :: xs => insertByKey key x (sortByKey key xs)

/-- `np.median` of a rational vector: middle element of the sorted vector,
or the mean of the two middle elements (empty case unreachable behind the
source's guards; modelled as `0`). -/
def median (l : List ℚ) : ℚ :=
  let s := sortByKey id l
  let n := s.length
  if n = 0 then 0
  else if n % 2 = 1 then s.getD (n / 2) 0
  else (s.getD (n / 2 - 1) 0 + s.getD (n / 2) 0) / 2

/-- First differences (`np.diff`). -/
def diffs : List ℚ → List ℚ
  | a :: b :: rest => (b - a) :: diffs (b :: rest)
  | _ => []

/-- `np.argmax` of the absolute values: index of the first occurrence of
the maximal `|·|`. -/
def argmaxAbs (l : List ℚ) : ℕ :=
  (l.foldl
    (fun st q =>
      let i := st.1
      let bi := st.2.1
      let bv := st.2.2
      if |q| > bv then (i + 1, i, |q|) else (i + 1, bi, bv))
    ((0 : ℕ), (0 : ℕ), (0 : ℚ))).2.1

/-- Python `min(candidates, key=...)`: first element with minimal key,
using IEEE `<` on the key (a later candidate replaces the current best only
when strictly smaller). -/
def pyMinBy (key : α → Vq) : List α → Option α
  | [] => none
  | x :: xs => some (xs.foldl (fun b c => if Vq.ltb (key c) (key b) then c else b) x)

/-! ### The model state (`PIDModel.__init__`) -/

/-- State of `PIDModel`.  The source always assigns `t`, `u`, `y` together
(every write site sets all three), so they are modelled as a single
optional triple. -/
structure PM where
  data : Option (List ℚ × List ℚ × List ℚ)
  k : Vq
  tau : Vq
  theta : Vq
  y0 : Vq
  du : Vq
  den_norm : Vq
  method_id : String
  padeOrderId : ℕ
  padeOrderCl : ℕ
  Kp : Vq
  Ti : Vq
  Td : Vq
deriving DecidableEq

/-- The freshly constructed model (`PIDModel()` with default Padé
orders). -/
def pmFresh : PM :=
  { data := none, k := Vq.nan, tau := Vq.nan, theta := Vq.nan,
    y0 := Vq.nan, du := Vq.nan, den_norm := Vq.nan, method_id := "N/A",
    padeOrderId := 10, padeOrderCl := 1,
    Kp := Vq.fin 0, Ti := Vq.fin 0, Td := Vq.fin 0 }

/-! ### `load_data` -/

/-- Input to `load_data` after the file/key location phase: either one of
the two early failures (unreadable file, missing `t`/`u`/`y` key) or the
three located arrays, flattened to one dimension. -/
inductive LoadInput where
  | readFail
  | keysMissing
  | arrays (t u y : List Vq)

/-- Outcome of `load_data`; the non-`ok` alternatives correspond one-to-one
to the source's distinct error messages. -/
inductive LoadRes where
  | ok
  | errRead
  | errKeys
  | errInsufficient
  | errShort
  | errStep
deriving DecidableEq

/-- Truncation to the common minimal length followed by the finiteness
mask: the rows where all three values are finite, as exact rationals. -/
def cleanRows (t0 u0 y0 : List Vq) : List (ℚ × ℚ × ℚ) :=
  let n := min t0.length (min u0.length y0.length)
  ((t0.take n).zip ((u0.take n).zip (y0.take n))).filterMap
    (fun r =>
      match r with
      | (Vq.fin a, Vq.fin b, Vq.fin c) => some (a, b, c)
      | _ => none)

/-- Sort by time (ascending), then drop rows whose timestamp equals the
previous one (`uniq_mask = [True] ++ (diff t > 0)`). -/
def dedupRows (rows : List (ℚ × ℚ × ℚ)) : List (ℚ × ℚ × ℚ) :=
  let s := sortByKey (fun r => r.1) rows
  match s with
  | [] => []
  | first :: rest =>
      first ::
        (rest.zip s).filterMap
          (fun pr => if pr.2.1 < pr.1.1 then some pr.1 else none)

/-- The epsilon used for step validity (`1e-6`). -/
def stepEps : ℚ := 1 / 1000000

/-- `load_data` body, returning the updated state and the exact outcome
(the boolean result of the source is `ok`; every other outcome returns
`False`). -/
def loadDataO (pm : PM) (inp : LoadInput) : PM × LoadRes :=
  match inp with
  | .readFail =>
      ({ pm with data := none, k := Vq.nan, tau := Vq.nan, theta := Vq.nan }, .errRead)
  | .keysMissing =>
      ({ pm with data := none, k := Vq.nan, tau := Vq.nan, theta := Vq.nan }, .errKeys)
  | .arrays t0 u0 y0 =>
      let rows := cleanRows t0 u0 y0
      if rows.length < 3 then
        ({ pm with data := none, k := Vq.nan, tau := Vq.nan, theta := Vq.nan }, .errInsufficient)
      else
        let ded := dedupRows rows
        let t := ded.map (fun r => r.1)
        let u := ded.map (fun r => r.2.1)
        let y := ded.map (fun r => r.2.2)
        let duVec := diffs u
        if duVec.length = 0 then
          ({ pm with data := none, k := Vq.nan, tau := Vq.nan, theta := Vq.nan }, .errShort)
        else
          let stepIdx := argmaxAbs duVec
          let u0v := if stepIdx > 0 then median (slice u (stepIdx - 25) stepIdx)
                     else median (u.take 25)
          let u1v := if stepIdx + 1 < u.length then
                       median (slice u (stepIdx + 1) (min u.length (stepIdx + 1 + 25)))
                     else median (lastN u 25)
          let y0v := if stepIdx > 0 then median (slice y (stepIdx - 25) stepIdx)
                     else median (y.take 25)
          let y1v := median (lastN y 25)
          let du1 := u1v - u0v
          let dnv := y1v - y0v
          let du2 :=
            if |du1| < stepEps then
              let u0b := if stepIdx > 0 then median (slice u (stepIdx - 50) stepIdx) else u0v
              let u1b := if stepIdx + 1 < u.length then
                           median (slice u (stepIdx + 1) (min u.length (stepIdx + 1 + 50)))
                         else u1v
              u1b - u0b
            else du1
          if |du2| < stepEps ∨ |dnv| < stepEps then
            ({ pm with
                data := some (t, u, y)
                y0 := Vq.fin y0v
                du := Vq.fin du2
                den_norm := Vq.fin dnv
                k := Vq.nan }, .errStep)
          else
            ({ pm with
                data := some (t, u, y)
                y0 := Vq.fin y0v
                du := Vq.fin du2
                den_norm := Vq.fin dnv
                k := Vq.fin (dnv / du2) }, .ok)

/-- The boolean result of `load_data` (`True` exactly on the `ok`
outcome: the source returns `np.isfinite(self.k)` there, and `k` is a
ratio of finite rationals). -/
def loadData (pm : PM) (inp : LoadInput) : PM × Bool :=
  ((loadDataO pm inp).1, (loadDataO pm inp).2 = .ok)

/-! ### Identification (`_time_at_norm`, `_simulate_fopdt`, `_rmse`,
`run_identification`) -/

/-- The stored time vector (`self.t`), empty when no dataset is loaded;
only read behind the source's `self.t is None` guards. -/
def tArr (pm : PM) : List ℚ :=
  match pm.data with
  | some d => d.1
  | none => []

/-- The stored output vector (`self.y`). -/
def yArr (pm : PM) : List ℚ :=
  match pm.data with
  | some d => d.2.2
  | none => []

/-- `_time_at_norm`: first time at which the normalised response
`(y - y0)/den_norm` reaches `percent` (IEEE comparison, so `nan`
normalised samples never qualify), `nan` if never reached or the
normalisation is degenerate. -/
def timeAtNorm (pm : PM) (percent : ℚ) : Vq :=
  if pm.data.isNone ∨ pm.den_norm.isFiniteb = false ∨
      Vq.ltb (Vq.absV pm.den_norm) (Vq.fin (1 / 1000000000)) = true then
    Vq.nan
  else
    let ynorm := (yArr pm).map (fun yi => ((Vq.fin yi).sub pm.y0).div pm.den_norm)
    match ynorm.findIdx? (fun v => Vq.leb (Vq.fin percent) v) with
    | some i => Vq.fin ((tArr pm).getD i 0)
    | none => Vq.nan

/-- The `control` library step response used for identification:
given `(k, tau, theta)`, the Padé order and the time vector, the library
returns the sampled unit-step response of
`(k/(tau*s+1)) * pade(theta)`.  Modelled as a parameter. -/
abbrev SRId := ℚ → ℚ → ℚ → ℕ → List ℚ → List Vq

/-- `_simulate_fopdt`: guards first (non-finite parameters, `tau <= 0` or
`theta < 0` short-circuit to a NaN vector of the length of the time
vector), then the library response rescaled to the experimental plateau
`y0 + den_norm * (y_step / k)`. -/
def simulateFopdt (sr : SRId) (pm : PM) (k tau theta : Vq) (tdata : List ℚ)
    (y0 : Vq) : List Vq :=
  if (!(k.isFiniteb && tau.isFiniteb && theta.isFiniteb)
        || Vq.leb tau (Vq.fin 0) || Vq.ltb theta (Vq.fin 0)) = true then
    List.replicate tdata.length Vq.nan
  else
    let ystep := sr k.toQ tau.toQ theta.toQ pm.padeOrderId tdata
    if Vq.ltb (Vq.absV k) (Vq.fin (1 / 1000000000000)) = true
        ∨ pm.den_norm.isFiniteb = false then
      List.replicate tdata.length Vq.nan
    else
      ystep.map (fun v => y0.add (pm.den_norm.mul (v.div k)))

/-- `_rmse`, represented by its square.  The source returns
`sqrt(mean(e**2))`, which is irrational; since the identification only
ever compares RMSE values and `sqrt` is strictly monotone on `[0, ∞]` and
fixes `inf`/`nan`, comparisons between these mean-square values coincide
with comparisons between the source's RMSE values. -/
def rmseSq (ytrue : List ℚ) (yhat : List Vq) : Vq :=
  if yhat.any (fun v => v = Vq.nan) || ytrue.length ≠ yhat.length then Vq.inf
  else
    let sq := List.zipWith (fun a b => ((Vq.fin a).sub b).mul ((Vq.fin a).sub b)) ytrue yhat
    (sq.foldl Vq.add (Vq.fin 0)).div (Vq.fin ytrue.length)

/-- Smith candidate `(tau, theta)` from the 28.3% and 63.2% crossing
times, `(nan, nan)` when the crossings are unusable. -/
def smithCand (pm : PM) : Vq × Vq :=
  let t1 := timeAtNorm pm (283 / 1000)
  let t2 := timeAtNorm pm (632 / 1000)
  if (t1.isFiniteb && t2.isFiniteb && Vq.ltb t1 t2) = true then
    let tau := (Vq.fin (3 / 2)).mul (t2.sub t1)
    (tau, t2.sub tau)
  else (Vq.nan, Vq.nan)

/-- Sundaresan & Krishnaswamy candidate from the 35.3% and 85.3% crossing
times. -/
def sunCand (pm : PM) : Vq × Vq :=
  let t1 := timeAtNorm pm (353 / 1000)
  let t2 := timeAtNorm pm (853 / 1000)
  if (t1.isFiniteb && t2.isFiniteb && Vq.ltb t1 t2) = true then
    (((Vq.fin (2 / 3)).mul (t2.sub t1)),
      ((Vq.fin (13 / 10)).mul t1).sub ((Vq.fin (29 / 100)).mul t2))
  else (Vq.nan, Vq.nan)

/-- Candidate qualification: finite `tau > 0` and finite `theta >= 0`. -/
def qualifyb (tau theta : Vq) : Bool :=
  tau.isFiniteb && Vq.ltb (Vq.fin 0) tau && theta.isFiniteb
    && Vq.leb (Vq.fin 0) theta

/-- The fitted curve of the Smith candidate. -/
def smithYhat (sr : SRId) (pm : PM) : List Vq :=
  simulateFopdt sr pm pm.k (smithCand pm).1 (smithCand pm).2 (tArr pm) pm.y0

/-- Mean-square fit error of the Smith candidate. -/
def smithR (sr : SRId) (pm : PM) : Vq := rmseSq (yArr pm) (smithYhat sr pm)

/-- The fitted curve of the Sundaresan candidate. -/
def sunYhat (sr : SRId) (pm : PM) : List Vq :=
  simulateFopdt sr pm pm.k (sunCand pm).1 (sunCand pm).2 (tArr pm) pm.y0

/-- Mean-square fit error of the Sundaresan candidate. -/
def sunR (sr : SRId) (pm : PM) : Vq := rmseSq (yArr pm) (sunYhat sr pm)

/-- One scored identification candidate. -/
structure Cand where
  r : Vq
  name : String
  tau : Vq
  theta : Vq
  yhat : List Vq
deriving DecidableEq

/-- Result of a successful identification (`run_identification`'s result
dictionary; `rmsq` is the squared representation of its `rmse` entry). -/
structure IdOut where
  kOut : Vq
  tauOut : Vq
  thetaOut : Vq
  rmsq : Vq
  methodId : String
  yExp : List ℚ
  tExp : List ℚ
  yModel : List Vq
deriving DecidableEq

/-- `run_identification`: score the two candidates, keep the qualifying
ones, fall back to a delay-free 10–90% model when both are discarded, and
choose the minimum by fit error (Python `min`, keeping the first of
equals). -/
def runIdentification (sr : SRId) (pm : PM) : Option (PM × IdOut) :=
  if pm.data.isNone ∨ pm.k.isFiniteb = false then none
  else
    let cS := smithCand pm
    let cU := sunCand pm
    let cands :=
      (if qualifyb cS.1 cS.2 = true then
        [Cand.mk (smithR sr pm) "Smith" cS.1 cS.2 (smithYhat sr pm)] else [])
      ++
      (if qualifyb cU.1 cU.2 = true then
        [Cand.mk (sunR sr pm) "Sundaresan" cU.1 cU.2 (sunYhat sr pm)] else [])
    let cands2 :=
      if cands.isEmpty then
        let t10 := timeAtNorm pm (10 / 100)
        let t90 := timeAtNorm pm (90 / 100)
        if (t10.isFiniteb && t90.isFiniteb && Vq.ltb t10 t90) = true then
          let tau0 := (t90.sub t10).div (Vq.fin (11 / 5))
          let yhat0 := simulateFopdt sr pm pm.k tau0 (Vq.fin 0) (tArr pm) pm.y0
          [Cand.mk (rmseSq (yArr pm) yhat0) "SemAtraso(backup)" tau0 (Vq.fin 0) yhat0]
        else []
      else cands
    match pyMinBy (fun c => c.r) cands2 with
    | none => none
    | some c =>
        some ({ pm with
                  tau := c.tau
                  theta := c.theta
                  method_id := c.name },
              IdOut.mk pm.k c.tau c.theta c.r c.name (yArr pm) (tArr pm) c.yhat)

/-! ### Transfer functions, Padé approximation and the closed loop -/

/-- A rational transfer function: numerator and denominator coefficients
in descending powers of `s`, as stored by `control.tf`. -/
structure TF where
  num : List Vq
  den : List Vq
deriving DecidableEq

/-- Polynomial product of coefficient vectors (`np.convolve`): entry `n`
is the sum of `xs[i] * ys[n-i]`. -/
def conv (xs ys : List Vq) : List Vq :=
  (List.range (xs.length + ys.length - 1)).map (fun n =>
    (List.range (n + 1)).foldl
      (fun acc i =>
        match xs.get? i, ys.get? (n - i) with
        | some a, some b => acc.add (a.mul b)
        | _, _ => acc)
      (Vq.fin 0))

/-- Polynomial sum of coefficient vectors in descending powers: aligned at
the constant coefficient, the shorter vector padded with zeros. -/
def polyAddR (xs ys : List Vq) : List Vq :=
  let n := max xs.length ys.length
  let px := List.replicate (n - xs.length) (Vq.fin 0) ++ xs
  let py := List.replicate (n - ys.length) (Vq.fin 0) ++ ys
  List.zipWith Vq.add px py

/-- Series combination of two transfer functions (`Gc * Gp`). -/
def tfMul (a b : TF) : TF := TF.mk (conv a.num b.num) (conv a.den b.den)

/-- Unity feedback `T = L / (1 + L)` (`control.feedback(L, 1)`). -/
def feedback1 (l : TF) : TF := TF.mk l.num (polyAddR l.den l.num)

/-- Coefficient `k` of the diagonal `(n, n)` Padé approximant of
`e^{-s}`. -/
def padeCoef (n j : ℕ) : ℚ :=
  ((Nat.factorial (2 * n - j) * Nat.factorial n : ℕ) : ℚ) /
    ((Nat.factorial (2 * n) * Nat.factorial j * Nat.factorial (n - j) : ℕ) : ℚ)

/-- `control.pade(T, n)`: numerator and denominator coefficients (in
descending powers) of the diagonal Padé approximant of the delay
`e^{-T s}`. -/
def padeQ (T : ℚ) (n : ℕ) : List ℚ × List ℚ :=
  (((List.range (n + 1)).map (fun j => padeCoef n j * (-T) ^ j)).reverse,
   ((List.range (n + 1)).map (fun j => padeCoef n j * T ^ j)).reverse)

/-- Padé coefficients of a possibly non-finite delay: a non-finite delay
contaminates every non-constant coefficient, modelled as all-NaN
vectors. -/
def padeV (theta : Vq) (n : ℕ) : List Vq × List Vq :=
  match theta with
  | Vq.fin q => (((padeQ q n).1).map Vq.fin, ((padeQ q n).2).map Vq.fin)
  | _ => (List.replicate (n + 1) Vq.nan, List.replicate (n + 1) Vq.nan)

/-- `_get_pid_tf`: the parallel PID transfer function
`(Kp*Td*s^2 + Kp*s + Kp/Ti) / s`, degenerating to the null transfer
function on non-finite gains, `Ti <= 0`, or the all-zero triple. -/
def getPidTf (pm : PM) : TF :=
  if pm.Kp.isFiniteb = false ∨ pm.Ti.isFiniteb = false ∨ pm.Td.isFiniteb = false then
    TF.mk [Vq.fin 0] [Vq.fin 1]
  else if Vq.leb pm.Ti (Vq.fin 0) = true
      ∨ (pm.Kp = Vq.fin 0 ∧ pm.Ti = Vq.fin 0 ∧ pm.Td = Vq.fin 0) then
    TF.mk [Vq.fin 0] [Vq.fin 1]
  else
    TF.mk [pm.Kp.mul pm.Td, pm.Kp, pm.Kp.div pm.Ti] [Vq.fin 1, Vq.fin 0]

/-- The `control` library step response used for the closed loop: the
sampled unit-step response of an assembled transfer function at the given
time points. Modelled as a parameter. -/
abbrev SRCl := TF → List ℚ → List Vq

/-! ### Metrics (`calculate_metrics`) -/

/-- The performance metrics record `{tr, ts, Mp, ess}`. -/
structure Metrics where
  tr : Vq
  ts : Vq
  Mp : Vq
  ess : Vq
deriving DecidableEq

/-- The ±2% settling band half-width `0.02 * |y_final|`. -/
def bandOf (yf : Vq) : Vq := (Vq.fin (2 / 100)).mul (Vq.absV yf)

/-- Indices of the samples outside the settling band
(`np.where(np.abs(y - y_final) > band)[0]`); a `nan` deviation compares
false, hence counts as inside. -/
def outIdx (y : List Vq) (yf : Vq) : List ℕ :=
  (List.range y.length).filter
    (fun i => Vq.ltb (bandOf yf) (Vq.absV ((y.getD i Vq.nan).sub yf)))

/-- Whether sample `i` is inside the settling band in the source's sense
(complement of the `outIdx` test). -/
def inBandb (y : List Vq) (yf : Vq) (i : ℕ) : Bool :=
  ! Vq.ltb (bandOf yf) (Vq.absV ((y.getD i Vq.nan).sub yf))

/-- `calculate_metrics`: rise time between the first 10% and 90%
crossings, settling time from the last out-of-band sample, overshoot
percentage and steady-state error. -/
def calculateMetrics (t : List ℚ) (y : List Vq) (yf : Vq) : Metrics :=
  if y.length = 0 ∨ y.any (fun v => v.isFiniteb) = false then
    Metrics.mk Vq.nan Vq.nan Vq.nan Vq.nan
  else
    let yss := y.getLastD Vq.nan
    let ess := Vq.absV (yf.sub yss)
    let t10 :=
      match y.findIdx? (fun v => Vq.leb ((Vq.fin (1 / 10)).mul yf) v) with
      | some i => Vq.fin (t.getD i 0)
      | none => Vq.nan
    let t90 :=
      match y.findIdx? (fun v => Vq.leb ((Vq.fin (9 / 10)).mul yf) v) with
      | some i => Vq.fin (t.getD i 0)
      | none => Vq.nan
    let tr := if (t10.isFiniteb && t90.isFiniteb) = true then t90.sub t10 else Vq.nan
    let mpv := Vq.listMax y
    let mp :=
      if (Vq.neb yf (Vq.fin 0) && Vq.ltb yf mpv) = true then
        ((mpv.sub yf).div yf).mul (Vq.fin 100)
      else Vq.fin 0
    let outside := outIdx y yf
    let ts :=
      match outside.getLast? with
      | some l => if l + 1 < t.length then Vq.fin (t.getD (l + 1) 0)
                  else Vq.fin (t.getLastD 0)
      | none => Vq.fin (t.headD 0)
    Metrics.mk tr ts mp ess

/-! ### Closed-loop simulation (`simulate_closed_loop`) -/

/-- The PID override resolution (`simulate_closed_loop` lines 312-314):
omitted or non-finite `Kp`/`Td` fall back to the stored gains; `Ti` is the
supplied value only when it is present, greater than `1e-6` and finite,
and is `1e-6` otherwise. -/
def resolvePid (pm : PM) (kp ti td : Option Vq) : Vq × Vq × Vq :=
  (match kp with
   | some v => if v.isFiniteb = true then v else pm.Kp
   | none => pm.Kp,
   match ti with
   | some v => if (Vq.ltb (Vq.fin stepEps) v && v.isFiniteb) = true then v
               else Vq.fin stepEps
   | none => Vq.fin stepEps,
   match td with
   | some v => if v.isFiniteb = true then v else pm.Td
   | none => pm.Td)

/-- `simulate_closed_loop`: resolve the PID triple and store it, assemble
`T = Gc*Gp/(1 + Gc*Gp)` with the low-order Padé delay, sample the library
unit-step response at the dataset's time points, convert the absolute
setpoint into a delta against `y0` and scale the unit response to it,
returning the time vector, relative response and metrics. -/
def simulateClosedLoop (sr : SRCl) (pm : PM) (setpoint : Vq)
    (kp ti td : Option Vq) : PM × Option (List ℚ × List Vq × Metrics) :=
  if pm.data.isNone ∨ pm.tau.isFiniteb = false ∨ pm.k.isFiniteb = false then
    (pm, none)
  else
    let r := resolvePid pm kp ti td
    let pm1 := { pm with
                   Kp := r.1
                   Ti := r.2.1
                   Td := r.2.2 }
    let gc := getPidTf pm1
    let pd := padeV pm.theta pm.padeOrderCl
    let gp := tfMul (TF.mk [pm.k] [pm.tau, Vq.fin 1]) (TF.mk pd.1 pd.2)
    let tcl := feedback1 (tfMul gc gp)
    let ts := tArr pm
    let yUnit := sr tcl ts
    let sp := if setpoint.isFiniteb = false then pm.y0.add pm.den_norm else setpoint
    let yfr := sp.sub pm.y0
    let ycl := yUnit.map (fun v => yfr.mul v)
    (pm1, some (ts, ycl, calculateMetrics ts ycl yfr))

/-! ### The tuning calculator (`calculate_pid_tuning`)

The tuning formulas involve non-integer real powers (ITAE), so this part
of the model is embedded over extended reals.  The definitions mirror the
same IEEE conventions as `Vq`. -/

/-- Extended-real idealisation of a float for the tuning formulas. -/
inductive Rv where
  | fin (x : ℝ)
  | inf
  | ninf
  | nan

namespace Rv

/-- Finiteness (`np.isfinite`). -/
def IsFinite : Rv → Prop
  | fin _ => True
  | _ => False

/-- IEEE strict greater-than against another value (false on `nan`). -/
def Gt : Rv → Rv → Prop
  | nan, _ => False
  | _, nan => False
  | fin a, fin b => b < a
  | inf, fin _ => True
  | fin _, inf => False
  | ninf, _ => False
  | _, ninf => True
  | inf, inf => False

/-- IEEE greater-or-equal (false on `nan`). -/
def Ge : Rv → Rv → Prop
  | nan, _ => False
  | _, nan => False
  | fin a, fin b => b ≤ a
  | inf, _ => True
  | fin _, inf => False
  | ninf, ninf => True
  | ninf, _ => False
  | fin _, ninf => True

/-- IEEE inequality (`!=`): true whenever a `nan` is involved. -/
def Neq : Rv → Rv → Prop
  | nan, _ => True
  | _, nan => True
  | fin a, fin b => a ≠ b
  | inf, inf => False
  | ninf, ninf => False
  | _, _ => True

open Classical in
/-- IEEE addition. -/
noncomputable def add : Rv → Rv → Rv
  | nan, _ => nan
  | _, nan => nan
  | fin a, fin b => fin (a + b)
  | fin _, inf => inf
  | fin _, ninf => ninf
  | inf, fin _ => inf
  | ninf, fin _ => ninf
  | inf, inf => inf
  | ninf, ninf => ninf
  | inf, ninf => nan
  | ninf, inf => nan

open Classical in
/-- IEEE multiplication (`0 * inf = nan`). -/
noncomputable def mul : Rv → Rv → Rv
  | nan, _ => nan
  | _, nan => nan
  | fin a, fin b => fin (a * b)
  | fin a, inf => if 0 < a then inf else if a < 0 then ninf else nan
  | fin a, ninf => if 0 < a then ninf else if a < 0 then inf else nan
  | inf, fin b => if 0 < b then inf else if b < 0 then ninf else nan
  | ninf, fin b => if 0 < b then ninf else if b < 0 then inf else nan
  | inf, inf => inf
  | inf, ninf => ninf
  | ninf, inf => ninf
  | ninf, ninf => inf

open Classical in
/-- IEEE division (numpy semantics at a zero denominator). -/
noncomputable def div : Rv → Rv → Rv
  | nan, _ => nan
  | _, nan => nan
  | fin a, fin b =>
      if b = 0 then (if a = 0 then nan else if 0 < a then inf else ninf)
      else fin (a / b)
  | fin _, inf => fin 0
  | fin _, ninf => fin 0
  | inf, fin b => if 0 ≤ b then inf else ninf
  | ninf, fin b => if 0 ≤ b then ninf else inf
  | _, _ => nan

open Classical in
/-- numpy float power `x ** e`.  For a positive finite base this is the
real power; `0 ** e` is `0`, `1` or `inf` by the sign of the exponent
(numpy emits `inf` for a negative exponent rather than raising); a
negative base yields the real power at integer exponents and `nan`
otherwise. -/
noncomputable def rpowV : Rv → ℝ → Rv
  | fin x, e =>
      if 0 < x then fin (x ^ e)
      else if x = 0 then (if 0 < e then fin 0 else if e = 0 then fin 1 else inf)
      else if e = (⌊e⌋ : ℝ) then fin (x ^ (⌊e⌋ : ℤ)) else nan
  | inf, e => if 0 < e then inf else if e = 0 then fin 1 else fin 0
  | ninf, e => if 0 < e then inf else if e = 0 then fin 1 else fin 0
  | nan, e => if e = 0 then fin 1 else nan

end Rv

/-- State slice consumed and produced by `calculate_pid_tuning`. -/
structure TS where
  k : Rv
  tau : Rv
  theta : Rv
  Kp : Rv
  Ti : Rv
  Td : Rv

/-- The tuning precondition exactly as tested by the source:
`np.isfinite(self.k) and self.tau > 0 and self.theta >= 0 and
self.k != 0` (note that only `k` is required to be finite). -/
def TuneValid (st : TS) : Prop :=
  st.k.IsFinite ∧ st.tau.Gt (Rv.fin 0) ∧ st.theta.Ge (Rv.fin 0)
    ∧ st.k.Neq (Rv.fin 0)

/-- ITAE constants `A..F` (`self.ITAE_CONST`). -/
def itaeA : ℝ := 0.965
/-- ITAE constant `B`. -/
def itaeB : ℝ := -0.85
/-- ITAE constant `C`. -/
def itaeC : ℝ := 0.796
/-- ITAE constant `D`. -/
def itaeD : ℝ := -0.147
/-- ITAE constant `E`. -/
def itaeE : ℝ := 0.308
/-- ITAE constant `F`. -/
def itaeF : ℝ := 0.929

open Classical in
/-- `calculate_pid_tuning`: degenerate `(0,0,0)` on an invalid model,
otherwise the closed-form triple of the selected method, stored as the
current gains and returned.  An unrecognised method name leaves the
initial `(nan, nan, nan)` triple. -/
noncomputable def calculatePidTuning (st : TS) (method : String)
    (lambdaVal : Option Rv) : TS × (Rv × Rv × Rv) :=
  if ¬ TuneValid st then
    ({ st with
         Kp := Rv.fin 0
         Ti := Rv.fin 0
         Td := Rv.fin 0 }, (Rv.fin 0, Rv.fin 0, Rv.fin 0))
  else
    let k := st.k
    let tau := st.tau
    let theta := st.theta
    let kpitd :=
      if method = "Ziegler-Nichols MA" then
        (((Rv.fin 1.2).mul tau).div (k.mul theta),
         (Rv.fin 2).mul theta, theta.div (Rv.fin 2))
      else if method = "IMC" then
        let lam := match lambdaVal with
                   | some l => if l.Gt (Rv.fin 0) then l else Rv.fin 1
                   | none => Rv.fin 1
        ((((Rv.fin 2).mul tau).add theta).div (k.mul (((Rv.fin 2).mul lam).add theta)),
         tau.add (theta.div (Rv.fin 2)),
         (tau.mul theta).div (((Rv.fin 2).mul tau).add theta))
      else if method = "CHR sem Sobressinal" then
        (((Rv.fin 0.6).mul tau).div (k.mul theta), tau, theta.div (Rv.fin 2))
      else if method = "CHR com Sobressinal" then
        (((Rv.fin 0.95).mul tau).div (k.mul theta),
         (Rv.fin 1.357).mul tau, (Rv.fin 0.473).mul theta)
      else if method = "ITAE" then
        let r := theta.div tau
        (((Rv.fin itaeA).div k).mul (r.rpowV itaeB),
         tau.mul ((Rv.fin itaeC).add ((Rv.fin itaeD).mul r)),
         (tau.mul (Rv.fin itaeE)).mul (r.rpowV itaeF))
      else if method = "Cohen e Coon" then
        let r := theta.div tau
        (((Rv.fin 1).div k).mul
            ((((Rv.fin 16).mul tau).add ((Rv.fin 3).mul theta)).div ((Rv.fin 12).mul theta)),
         (theta.mul ((Rv.fin 32).add ((Rv.fin 6).mul r))).div
            ((Rv.fin 13).add ((Rv.fin 8).mul r)),
         ((Rv.fin 4).mul theta).div ((Rv.fin 11).add ((Rv.fin 2).mul r)))
      else (Rv.nan, Rv.nan, Rv.nan)
    ({ st with
         Kp := kpitd.1
         Ti := kpitd.2.1
         Td := kpitd.2.2 }, kpitd)

/-- Tag for the six recognised tuning methods; `codeName` gives the
method string the source dispatches on (the spec's table labels them
Ziegler-Nichols-OpenLoop, IMC, CHR-NoOvershoot, CHR-WithOvershoot, ITAE,
Cohen-Coon in the same order). -/
inductive TuneMethod where
  | zn
  | imc
  | chrNo
  | chrWith
  | itae
  | cohen
deriving DecidableEq

/-- The source's method strings. -/
def codeName : TuneMethod → String
  | .zn => "Ziegler-Nichols MA"
  | .imc => "IMC"
  | .chrNo => "CHR sem Sobressinal"
  | .chrWith => "CHR com Sobressinal"
  | .itae => "ITAE"
  | .cohen => "Cohen e Coon"

open Classical in
/-- The IMC filter constant after the defaulting rule of the spec:
`lambda` when supplied and positive, otherwise `1.0`. -/
noncomputable def effLambda (lambdaVal : Option Rv) : Rv :=
  match lambdaVal with
  | some l => if l.Gt (Rv.fin 0) then l else Rv.fin 1
  | none => Rv.fin 1

/-- Modelled from the spec: the closed-form tuning table of spec section
4.4, row by row, evaluated under the same extended-real conventions as
the calculator (`r = theta/tau`). -/
noncomputable def specPidTable (m : TuneMethod) (k tau theta lam : Rv) :
    Rv × Rv × Rv :=
  match m with
  | .zn =>
      (((Rv.fin 1.2).mul tau).div (k.mul theta),
       (Rv.fin 2).mul theta, theta.div (Rv.fin 2))
  | .imc =>
      ((((Rv.fin 2).mul tau).add theta).div (k.mul (((Rv.fin 2).mul lam).add theta)),
       tau.add (theta.div (Rv.fin 2)),
       (tau.mul theta).div (((Rv.fin 2).mul tau).add theta))
  | .chrNo =>
      (((Rv.fin 0.6).mul tau).div (k.mul theta), tau, theta.div (Rv.fin 2))
  | .chrWith =>
      (((Rv.fin 0.95).mul tau).div (k.mul theta),
       (Rv.fin 1.357).mul tau, (Rv.fin 0.473).mul theta)
  | .itae =>
      let r := theta.div tau
      (((Rv.fin itaeA).div k).mul (r.rpowV itaeB),
       tau.mul ((Rv.fin itaeC).add ((Rv.fin itaeD).mul r)),
       (tau.mul (Rv.fin itaeE)).mul (r.rpowV itaeF))
  | .cohen =>
      let r := theta.div tau
      (((Rv.fin 1).div k).mul
          ((((Rv.fin 16).mul tau).add ((Rv.fin 3).mul theta)).div ((Rv.fin 12).mul theta)),
       (theta.mul ((Rv.fin 32).add ((Rv.fin 6).mul r))).div
          ((Rv.fin 13).add ((Rv.fin 8).mul r)),
       ((Rv.fin 4).mul theta).div ((Rv.fin 11).add ((Rv.fin 2).mul r)))

/-! ## Theorems -/

section Evaluation

set_option allowUnsafeReducibility true

attribute [local semireducible] Rat.mul Rat.add Rat.sub Rat.inv

/-- IEEE `<=` and `<` are mutually exclusive in opposite directions. -/
theorem Vq.leb_ltb_false (a b : Vq) (h : Vq.leb a b = true) :
    Vq.ltb b a = false := by
  cases a <;> cases b <;> simp_all [Vq.leb, Vq.ltb]

/-- C7: whenever `tau <= 0` or any of `(k, tau, theta)` is non-finite, the
FOPDT simulation short-circuits to a NaN vector of the length of the time
vector (it never reaches the response engine). -/
theorem fopdt_guard_returns_nan_vector (sr : SRId) (pm : PM)
    (k tau theta : Vq) (tdata : List ℚ) (y0 : Vq)
    (h : Vq.leb tau (Vq.fin 0) = true ∨ k.isFiniteb = false
        ∨ tau.isFiniteb = false ∨ theta.isFiniteb = false) :
    simulateFopdt sr pm k tau theta tdata y0
      = List.replicate tdata.length Vq.nan := by
  unfold simulateFopdt
  rw [if_pos]
  rcases h with h | h | h | h <;> simp [h]

/-- Witness for C7 at `tau = 0`. -/
theorem fopdt_guard_returns_nan_vector_witness :
    simulateFopdt (fun _ _ _ _ _ => []) pmFresh (Vq.fin 1) (Vq.fin 0)
        (Vq.fin 1) [0, 1, 2] (Vq.fin 0) = List.replicate 3 Vq.nan :=
  fopdt_guard_returns_nan_vector _ _ _ _ _ _ _ (Or.inl (by decide))

/-- C4 counterexample: a readable file with a flat input signal takes the
invalid-step failure path, which returns `False` but stores the cleaned
arrays instead of clearing them. -/
theorem load_failure_keeps_arrays_on_invalid_step :
    (loadDataO pmFresh (.arrays [Vq.fin 0, Vq.fin 1, Vq.fin 2]
        [Vq.fin 5, Vq.fin 5, Vq.fin 5] [Vq.fin 0, Vq.fin 1, Vq.fin 2])).2
      ≠ LoadRes.ok
    ∧ (loadDataO pmFresh (.arrays [Vq.fin 0, Vq.fin 1, Vq.fin 2]
        [Vq.fin 5, Vq.fin 5, Vq.fin 5] [Vq.fin 0, Vq.fin 1, Vq.fin 2])).1.data
      ≠ none := by
  decide

/-- C4 (amended): every failing `load_data` call sets `k` to the NaN
sentinel; the failures before step detection also clear the arrays and
reset `tau`/`theta`, while the invalid-step failure stores the cleaned
arrays. -/
theorem load_failure_reset_characterization (pm : PM) (inp : LoadInput)
    (h : (loadDataO pm inp).2 ≠ LoadRes.ok) :
    (loadDataO pm inp).1.k = Vq.nan
    ∧ ((loadDataO pm inp).2 ≠ LoadRes.errStep →
        (loadDataO pm inp).1.data = none
        ∧ (loadDataO pm inp).1.tau = Vq.nan
        ∧ (loadDataO pm inp).1.theta = Vq.nan)
    ∧ ((loadDataO pm inp).2 = LoadRes.errStep →
        (loadDataO pm inp).1.data ≠ none) := by
  cases inp with
  | readFail => simp [loadDataO]
  | keysMissing => simp [loadDataO]
  | arrays t0 u0 y0 =>
      simp only [loadDataO] at h ⊢
      split_ifs at h ⊢ <;> simp_all

/-- Witness for C4 (amended) at the unreadable-file failure. -/
theorem load_failure_reset_characterization_witness :
    (loadDataO pmFresh LoadInput.readFail).1.k = Vq.nan
    ∧ ((loadDataO pmFresh LoadInput.readFail).2 ≠ LoadRes.errStep →
        (loadDataO pmFresh LoadInput.readFail).1.data = none
        ∧ (loadDataO pmFresh LoadInput.readFail).1.tau = Vq.nan
        ∧ (loadDataO pmFresh LoadInput.readFail).1.theta = Vq.nan)
    ∧ ((loadDataO pmFresh LoadInput.readFail).2 = LoadRes.errStep →
        (loadDataO pmFresh LoadInput.readFail).1.data ≠ none) :=
  load_failure_reset_characterization pmFresh LoadInput.readFail (by decide)

/-- Insertion into a sorted list adds exactly one element. -/
theorem insertByKey_length (key : α → ℚ) (x : α) (l : List α) :
    (insertByKey key x l).length = l.length + 1 := by
  induction l with
  | nil => rfl
  | cons y ys ih =>
      unfold insertByKey
      split <;> simp [ih]

/-- The stable sort preserves length. -/
theorem sortByKey_length (key : α → ℚ) (l : List α) :
    (sortByKey key l).length = l.length := by
  induction l with
  | nil => rfl
  | cons x xs ih => simp [sortByKey, insertByKey_length, ih]

/-- Deduplication of a non-empty row list is non-empty. -/
theorem dedupRows_length_pos (rows : List (ℚ × ℚ × ℚ)) (h : rows ≠ []) :
    0 < (dedupRows rows).length := by
  unfold dedupRows
  have hs : (sortByKey (fun r => r.1) rows).length = rows.length :=
    sortByKey_length _ _
  cases hsk : sortByKey (fun r => r.1) rows with
  | nil =>
      rw [hsk] at hs
      exact absurd (List.length_eq_zero.1 hs.symm) h
  | cons a l => simp [hsk]

/-- The first-maximum index of a one-element vector is `0`. -/
theorem argmaxAbs_singleton (d : ℚ) : argmaxAbs [d] = 0 := by
  unfold argmaxAbs
  simp only [List.foldl]
  split <;> rfl

/-- C5 counterexample: an input of three finite samples carrying a
duplicate timestamp passes the insufficient-data check, is reduced to two
samples by deduplication, and then proceeds into step detection, failing
there with the invalid-step error. -/
theorem dedup_below_three_reaches_step_detection :
    (dedupRows (cleanRows [Vq.fin 0, Vq.fin 0, Vq.fin 1]
        [Vq.fin 2, Vq.fin 2, Vq.fin 5] [Vq.fin 0, Vq.fin 0, Vq.fin 10])).length < 3
    ∧ (loadDataO pmFresh (.arrays [Vq.fin 0, Vq.fin 0, Vq.fin 1]
        [Vq.fin 2, Vq.fin 2, Vq.fin 5] [Vq.fin 0, Vq.fin 0, Vq.fin 10])).2
      = LoadRes.errStep := by
  decide

/-- C5 (amended): whenever fewer than 3 samples survive cleaning, sorting
and deduplication, `load_data` returns `False` — though the insufficient
check itself runs before deduplication, so an input reduced below 3 only
by deduplication reaches the later failure checks instead. -/
theorem dedup_below_three_returns_false (pm : PM) (t0 u0 y0 : List Vq)
    (h : (dedupRows (cleanRows t0 u0 y0)).length < 3) :
    (loadDataO pm (.arrays t0 u0 y0)).2 ≠ LoadRes.ok := by
  simp only [loadDataO]
  by_cases h3 : (cleanRows t0 u0 y0).length < 3
  · rw [if_pos h3]
    simp
  · rw [if_neg h3]
    have hne : cleanRows t0 u0 y0 ≠ [] := by
      intro hnil
      exact h3 (by simp [hnil])
    have hpos := dedupRows_length_pos (cleanRows t0 u0 y0) hne
    rcases hd : dedupRows (cleanRows t0 u0 y0) with _ | ⟨a, _ | ⟨b, _ | ⟨c, l⟩⟩⟩
    · rw [hd] at hpos
      simp at hpos
    · simp [diffs]
    · rcases a with ⟨ta, ua, ya⟩
      rcases b with ⟨tb, ub, yb⟩
      simp only [List.map_cons, List.map_nil, diffs, List.length_cons,
        List.length_nil]
      rw [if_neg (by simp)]
      rw [argmaxAbs_singleton]
      have hlast : lastN [ya, yb] 25 = [ya, yb] := by simp [lastN]
      have htake : List.take 25 [ya, yb] = [ya, yb] :=
        List.take_of_length_le (by simp)
      norm_num [hlast, htake]
      rw [if_pos]
      · simp
      · right
        norm_num [stepEps]
    · rw [hd] at h
      simp at h
      omega

/-- Witness for C5 (amended) at a one-sample input. -/
theorem dedup_below_three_returns_false_witness :
    (loadDataO pmFresh (.arrays [Vq.fin 0] [Vq.fin 1] [Vq.fin 2])).2
      ≠ LoadRes.ok :=
  dedup_below_three_returns_false pmFresh _ _ _ (by decide)

/-- In a strictly increasing list the last element bounds every member. -/
theorem getLast?_max : ∀ (l : List ℕ), l.Pairwise (· < ·) →
    ∀ L, l.getLast? = some L → ∀ j ∈ l, j ≤ L := by
  intro l
  induction l with
  | nil => intro _ L hL; simp at hL
  | cons x xs ih =>
      intro hp L hL j hj
      cases xs with
      | nil =>
          simp at hL hj
          omega
      | cons b bs =>
          rw [List.getLast?_cons_cons] at hL
          rcases List.mem_cons.1 hj with rfl | hj2
          · have hLmem : L ∈ b :: bs := List.mem_of_getLast?_eq_some hL
            have := (List.pairwise_cons.1 hp).1 L hLmem
            omega
          · exact ih (List.pairwise_cons.1 hp).2 L hL j hj2

/-- Membership in the out-of-band index list. -/
theorem mem_outIdx (y : List Vq) (yf : Vq) (i : ℕ) :
    i ∈ outIdx y yf ↔ i < y.length ∧ inBandb y yf i = false := by
  simp [outIdx, inBandb, List.mem_filter, List.mem_range]

/-- The out-of-band index list is strictly increasing. -/
theorem outIdx_pairwise (y : List Vq) (yf : Vq) :
    (outIdx y yf).Pairwise (· < ·) :=
  List.Pairwise.sublist (List.filter_sublist _) (List.pairwise_lt_range _)

/-- Reduction of the settling-time component of the metrics under the
non-degenerate guard. -/
theorem calculateMetrics_ts_eq (t : List ℚ) (y : List Vq) (yf : Vq)
    (hne : y ≠ []) (hfin : y.any (fun v => v.isFiniteb) = true) :
    (calculateMetrics t y yf).ts =
      match (outIdx y yf).getLast? with
      | some l => if l + 1 < t.length then Vq.fin (t.getD (l + 1) 0)
                  else Vq.fin (t.getLastD 0)
      | none => Vq.fin (t.headD 0) := by
  have hg : ¬(y.length = 0 ∨ (y.any fun v => v.isFiniteb) = false) := by
    push_neg
    exact ⟨by simpa using hne, by simp [hfin]⟩
  unfold calculateMetrics
  rw [if_neg hg]

/-- C3 counterexample: with `t = [0,1,2]`, `y = [0,0,10]` and target `1`,
the final sample is outside the ±2% band — the band is never permanently
satisfied — yet the reported settling time is the defined final time `2`,
not an undefined value. -/
theorem settling_time_defined_when_band_never_held :
    inBandb [Vq.fin 0, Vq.fin 0, Vq.fin 10] (Vq.fin 1) 2 = false
    ∧ (calculateMetrics [0, 1, 2] [Vq.fin 0, Vq.fin 0, Vq.fin 10]
        (Vq.fin 1)).ts = Vq.fin 2
    ∧ Vq.fin 2 ≠ Vq.nan := by
  decide

/-- C3 (amended): for a non-empty response with a finite sample, the
settling time is the time at the sample after the LAST out-of-band index
(that index is out of band and every later one is in band) whenever that
successor exists; when no sample is out of band it is the first time
point; and when the last out-of-band sample is the final sample — the
band never permanently satisfied — it is the final time point rather
than undefined. -/
theorem settling_time_characterization (t : List ℚ) (y : List Vq) (yf : Vq)
    (hne : y ≠ []) (hfin : y.any (fun v => v.isFiniteb) = true)
    (hlen : t.length = y.length) :
    (outIdx y yf = [] → (calculateMetrics t y yf).ts = Vq.fin (t.headD 0))
    ∧ (∀ L, (outIdx y yf).getLast? = some L →
        inBandb y yf L = false
        ∧ (∀ j, L < j → j < y.length → inBandb y yf j = true)
        ∧ (L + 1 < t.length →
            (calculateMetrics t y yf).ts = Vq.fin (t.getD (L + 1) 0))
        ∧ (L + 1 = t.length →
            (calculateMetrics t y yf).ts = Vq.fin (t.getLastD 0))) := by
  constructor
  · intro h0
    rw [calculateMetrics_ts_eq t y yf hne hfin, h0]
    rfl
  · intro L hL
    have hmem : L ∈ outIdx y yf := List.mem_of_getLast?_eq_some hL
    have hband := (mem_outIdx y yf L).1 hmem
    refine ⟨hband.2, ?_, ?_, ?_⟩
    · intro j hLj hjlen
      by_contra hcon
      have hjmem : j ∈ outIdx y yf :=
        (mem_outIdx y yf j).2 ⟨hjlen, by simpa using hcon⟩
      have := getLast?_max _ (outIdx_pairwise y yf) L hL j hjmem
      omega
    · intro hlt
      rw [calculateMetrics_ts_eq t y yf hne hfin, hL]
      simp [hlt]
    · intro heq
      rw [calculateMetrics_ts_eq t y yf hne hfin, hL]
      have hnlt : ¬ (L + 1 < t.length) := by omega
      simp [hnlt]

/-- Witness for C3 (amended): a response that re-enters the band at index
1, exits again at index 2 and then settles reports the time after the
last exit. -/
theorem settling_time_characterization_witness :
    (calculateMetrics [0, 1, 2, 3] [Vq.fin 0, Vq.fin 1, Vq.fin 0, Vq.fin 1]
        (Vq.fin 1)).ts = Vq.fin 3 := by
  have h := settling_time_characterization [0, 1, 2, 3]
    [Vq.fin 0, Vq.fin 1, Vq.fin 0, Vq.fin 1] (Vq.fin 1)
    (by decide) (by decide) (by decide)
  exact (h.2 2 (by decide)).2.2.1 (by decide)

/-- C1: with a loaded dataset, finite gain and both identification
candidates qualifying, the winner is Smith whenever
`rmse_smith <= rmse_sun` — including exact ties — and Sundaresan exactly
when `rmse_sun < rmse_smith` (Python `min` keeps the first minimum, and
Smith is listed first). -/
theorem identification_prefers_smith_on_ties (sr : SRId) (pm : PM)
    (hdata : pm.data.isNone = false) (hk : pm.k.isFiniteb = true)
    (hS : qualifyb (smithCand pm).1 (smithCand pm).2 = true)
    (hU : qualifyb (sunCand pm).1 (sunCand pm).2 = true) :
    (Vq.leb (smithR sr pm) (sunR sr pm) = true →
      (runIdentification sr pm).map (fun pr => pr.2.methodId) = some "Smith"
      ∧ (runIdentification sr pm).map (fun pr => pr.1.method_id) = some "Smith")
    ∧ ((runIdentification sr pm).map (fun pr => pr.2.methodId)
          = some "Sundaresan"
        ↔ Vq.ltb (sunR sr pm) (smithR sr pm) = true) := by
  have hrun : (runIdentification sr pm).map (fun pr => pr.2.methodId)
        = some (if Vq.ltb (sunR sr pm) (smithR sr pm) = true
                then "Sundaresan" else "Smith")
      ∧ (runIdentification sr pm).map (fun pr => pr.1.method_id)
        = some (if Vq.ltb (sunR sr pm) (smithR sr pm) = true
                then "Sundaresan" else "Smith") := by
    by_cases hlt : Vq.ltb (sunR sr pm) (smithR sr pm) = true <;>
      simp [runIdentification, hdata, hk, hS, hU, pyMinBy, hlt]
  constructor
  · intro hleb
    have hf := Vq.leb_ltb_false _ _ hleb
    rw [hrun.1, hrun.2, if_neg (by simp [hf])]
    exact ⟨rfl, rfl⟩
  · rw [hrun.1]
    have hne : ("Smith" : String) ≠ "Sundaresan" := by decide
    by_cases hlt : Vq.ltb (sunR sr pm) (smithR sr pm) = true <;>
      simp [hlt, hne]

/-- A dataset state on which both identification rules produce qualifying
candidates (used as concrete witness input). -/
def pmId : PM :=
  { data := some ([0, 1, 2, 3, 4, 5], [0, 1, 1, 1, 1, 1],
      [0, 3/10, 1/2, 7/10, 9/10, 1]),
    k := Vq.fin 1, tau := Vq.nan, theta := Vq.nan,
    y0 := Vq.fin 0, du := Vq.fin 1, den_norm := Vq.fin 1,
    method_id := "N/A", padeOrderId := 10, padeOrderCl := 1,
    Kp := Vq.fin 0, Ti := Vq.fin 0, Td := Vq.fin 0 }

/-- A degenerate response engine (used as concrete witness input; both
candidates then score `inf`, an exact tie). -/
def srNull : SRId := fun _ _ _ _ _ => []

/-- Witness for C1 at an exact RMSE tie. -/
theorem identification_prefers_smith_on_ties_witness :
    (runIdentification srNull pmId).map (fun pr => pr.2.methodId)
      = some "Smith" := by
  have h := identification_prefers_smith_on_ties srNull pmId
    (by decide) (by decide) (by decide) (by decide)
  exact (h.1 (by decide)).1

/-- A loaded, identified model state with stored gains
`Kp = 2, Ti = 1, Td = 3` (used as concrete witness input). -/
def pmCl : PM :=
  { data := some ([0, 1], [0, 0], [0, 0]),
    k := Vq.fin 1, tau := Vq.fin 1, theta := Vq.fin 0,
    y0 := Vq.fin 0, du := Vq.fin 1, den_norm := Vq.fin 1,
    method_id := "N/A", padeOrderId := 10, padeOrderCl := 1,
    Kp := Vq.fin 2, Ti := Vq.fin 1, Td := Vq.fin 3 }

/-- A closed-loop response engine returning the zero response (used as
concrete witness input). -/
def srZeroCl : SRCl := fun _ tv => List.replicate tv.length (Vq.fin 0)

/-- C6 counterexample: the stored `Ti = 1` is not below the `1e-6` clamp,
so the claim predicts the omitted `Ti` falls back to `1`; the code
instead replaces every omitted `Ti` by exactly `1e-6`. -/
theorem omitted_ti_ignores_stored_value :
    pmCl.Ti = Vq.fin 1
    ∧ (simulateClosedLoop srZeroCl pmCl (Vq.fin 1) none none none).1.Ti
        = Vq.fin (1 / 1000000)
    ∧ Vq.fin ((1 : ℚ) / 1000000) ≠ Vq.fin 1 := by
  decide

/-- C6 (amended): in `simulate_closed_loop`, omitted `Kp` and `Td`
override components fall back to the stored gains, but `Ti` never does:
an omitted, non-finite or not-greater-than-`1e-6` `Ti` is replaced by
exactly `1e-6`, and only a supplied finite `Ti > 1e-6` is used. -/
theorem override_fallback_characterization (sr : SRCl) (pm : PM) (sp : Vq)
    (tiOpt : Option Vq) (hdata : pm.data.isNone = false)
    (htau : pm.tau.isFiniteb = true) (hk : pm.k.isFiniteb = true) :
    (simulateClosedLoop sr pm sp none tiOpt none).1.Kp = pm.Kp
    ∧ (simulateClosedLoop sr pm sp none tiOpt none).1.Td = pm.Td
    ∧ (simulateClosedLoop sr pm sp none tiOpt none).1.Ti =
        (match tiOpt with
         | none => Vq.fin stepEps
         | some v =>
             if (Vq.ltb (Vq.fin stepEps) v && v.isFiniteb) = true then v
             else Vq.fin stepEps) := by
  cases tiOpt <;>
    simp [simulateClosedLoop, resolvePid, hdata, htau, hk]

/-- Witness for C6 (amended) with a supplied `Ti = 5`. -/
theorem override_fallback_characterization_witness :
    (simulateClosedLoop srZeroCl pmCl (Vq.fin 1) none (some (Vq.fin 5))
        none).1.Kp = pmCl.Kp
    ∧ (simulateClosedLoop srZeroCl pmCl (Vq.fin 1) none (some (Vq.fin 5))
        none).1.Td = pmCl.Td
    ∧ (simulateClosedLoop srZeroCl pmCl (Vq.fin 1) none (some (Vq.fin 5))
        none).1.Ti =
        (match (some (Vq.fin 5) : Option Vq) with
         | none => Vq.fin stepEps
         | some v =>
             if (Vq.ltb (Vq.fin stepEps) v && v.isFiniteb) = true then v
             else Vq.fin stepEps) :=
  override_fallback_characterization srZeroCl pmCl (Vq.fin 1)
    (some (Vq.fin 5)) (by decide) (by decide) (by decide)

/-- The clamp floor does not test below zero. -/
theorem ltb_eps_zero : Vq.ltb (Vq.fin stepEps) (Vq.fin 0) = false := by decide

/-- The clamp floor is positive. -/
theorem leb_eps_zero : Vq.leb (Vq.fin stepEps) (Vq.fin 0) = false := by decide

/-- The clamp floor is nonzero. -/
theorem eps_ne_zero : Vq.fin stepEps ≠ Vq.fin 0 := by decide

/-- Zero times zero. -/
theorem vq_mul_zero_zero : Vq.mul (Vq.fin 0) (Vq.fin 0) = Vq.fin 0 := by decide

/-- Zero divided by the clamp floor. -/
theorem vq_div_zero_eps : Vq.div (Vq.fin 0) (Vq.fin stepEps) = Vq.fin 0 := by
  decide

end Evaluation

/-- A convolution of an all-zero coefficient vector with an all-finite
one is all-zero. -/
theorem conv_mem_fin_zero (xs ys : List Vq)
    (hx : ∀ a ∈ xs, a = Vq.fin 0) (hy : ∀ b ∈ ys, b.isFiniteb = true) :
    ∀ c ∈ conv xs ys, c = Vq.fin 0 := by
  intro c hc
  unfold conv at hc
  rcases List.mem_map.1 hc with ⟨n, _, rfl⟩
  have hstep : ∀ (l : List ℕ) (acc : Vq), acc = Vq.fin 0 →
      (l.foldl (fun acc i =>
        match xs.get? i, ys.get? (n - i) with
        | some a, some b => acc.add (a.mul b)
        | _, _ => acc) acc) = Vq.fin 0 := by
    intro l
    induction l with
    | nil => intro acc h; simpa using h
    | cons i is ih =>
        intro acc h
        subst h
        simp only [List.foldl]
        apply ih
        cases hga : xs.get? i with
        | none => simp [hga]
        | some a =>
            cases hgb : ys.get? (n - i) with
            | none => simp [hga, hgb]
            | some b =>
                have ha : a = Vq.fin 0 := hx a (List.get?_mem hga)
                have hb : b.isFiniteb = true := hy b (List.get?_mem hgb)
                subst ha
                cases b with
                | fin q => simp [hga, hgb, Vq.mul, Vq.add]
                | inf => simp [Vq.isFiniteb] at hb
                | ninf => simp [Vq.isFiniteb] at hb
                | nan => simp [Vq.isFiniteb] at hb
  exact hstep _ _ rfl

/-- A convolution of all-finite coefficient vectors is all-finite. -/
theorem conv_mem_finite (xs ys : List Vq)
    (hx : ∀ a ∈ xs, a.isFiniteb = true) (hy : ∀ b ∈ ys, b.isFiniteb = true) :
    ∀ c ∈ conv xs ys, c.isFiniteb = true := by
  intro c hc
  unfold conv at hc
  rcases List.mem_map.1 hc with ⟨n, _, rfl⟩
  have hstep : ∀ (l : List ℕ) (acc : Vq), acc.isFiniteb = true →
      (l.foldl (fun acc i =>
        match xs.get? i, ys.get? (n - i) with
        | some a, some b => acc.add (a.mul b)
        | _, _ => acc) acc).isFiniteb = true := by
    intro l
    induction l with
    | nil => intro acc h; simpa using h
    | cons i is ih =>
        intro acc h
        simp only [List.foldl]
        apply ih
        cases hga : xs.get? i with
        | none => simpa [hga] using h
        | some a =>
            cases hgb : ys.get? (n - i) with
            | none => simpa [hga, hgb] using h
            | some b =>
                have ha := hx a (List.get?_mem hga)
                have hb := hy b (List.get?_mem hgb)
                cases a with
                | fin qa =>
                    cases b with
                    | fin qb =>
                        cases acc with
                        | fin qc => simp [hga, hgb, Vq.mul, Vq.add, Vq.isFiniteb]
                        | inf => simp [Vq.isFiniteb] at h
                        | ninf => simp [Vq.isFiniteb] at h
                        | nan => simp [Vq.isFiniteb] at h
                    | inf => simp [Vq.isFiniteb] at hb
                    | ninf => simp [Vq.isFiniteb] at hb
                    | nan => simp [Vq.isFiniteb] at hb
                | inf => simp [Vq.isFiniteb] at ha
                | ninf => simp [Vq.isFiniteb] at ha
                | nan => simp [Vq.isFiniteb] at ha
  exact hstep _ _ rfl

/-- C9: overriding with `Kp = 0, Ti = 0, Td = 0` on a loaded dataset with
finite model parameters produces a controller transfer function with an
identically-zero numerator (the null transfer function, in the rational
function sense) and a closed-loop relative response that is zero at every
sample, for any plant parameters; `hsr` is the documented LTI semantics
of the library's step response on a zero transfer function. -/
theorem zero_pid_override_zero_response (sr : SRCl) (pm : PM)
    (tv kv thv yv sv : ℚ) (hdata : pm.data.isNone = false)
    (htau : pm.tau = Vq.fin tv) (hk : pm.k = Vq.fin kv)
    (hth : pm.theta = Vq.fin thv) (hy0 : pm.y0 = Vq.fin yv)
    (hsr : ∀ tf tvec, (∀ c ∈ TF.num tf, c = Vq.fin 0) →
        sr tf tvec = List.replicate tvec.length (Vq.fin 0)) :
    (∀ c ∈ (getPidTf (simulateClosedLoop sr pm (Vq.fin sv)
        (some (Vq.fin 0)) (some (Vq.fin 0)) (some (Vq.fin 0))).1).num,
      c = Vq.fin 0)
    ∧ (simulateClosedLoop sr pm (Vq.fin sv) (some (Vq.fin 0))
        (some (Vq.fin 0)) (some (Vq.fin 0))).2
      = some (tArr pm,
          List.replicate (tArr pm).length (Vq.fin 0),
          calculateMetrics (tArr pm)
            (List.replicate (tArr pm).length (Vq.fin 0))
            (Vq.fin (sv - yv))) := by
  have hguard : ¬(pm.data.isNone = true ∨ pm.tau.isFiniteb = false
      ∨ pm.k.isFiniteb = false) := by
    simp [hdata, htau, hk, Vq.isFiniteb]
  have hres1 : resolvePid pm (some (Vq.fin 0)) (some (Vq.fin 0))
      (some (Vq.fin 0)) = (Vq.fin 0, Vq.fin stepEps, Vq.fin 0) := by
    simp [resolvePid, ltb_eps_zero, Vq.isFiniteb]
  have hgc : getPidTf { pm with
        Kp := Vq.fin 0
        Ti := Vq.fin stepEps
        Td := Vq.fin 0 }
      = TF.mk [Vq.fin 0, Vq.fin 0, Vq.fin 0] [Vq.fin 1, Vq.fin 0] := by
    simp [getPidTf, Vq.isFiniteb, leb_eps_zero, eps_ne_zero,
      vq_mul_zero_zero, vq_div_zero_eps]
    norm_num [stepEps]
  have hnum : ∀ (TFb : TF), (∀ b ∈ TFb.num, b.isFiniteb = true) →
      ∀ c ∈ (feedback1 (tfMul (TF.mk [Vq.fin 0, Vq.fin 0, Vq.fin 0]
        [Vq.fin 1, Vq.fin 0]) TFb)).num, c = Vq.fin 0 := by
    intro TFb hfb
    simp only [feedback1, tfMul]
    exact conv_mem_fin_zero _ _ (by simp) hfb
  have hgpfin : ∀ c ∈ (tfMul (TF.mk [pm.k] [pm.tau, Vq.fin 1])
      (TF.mk ((padeV pm.theta pm.padeOrderCl).1)
        ((padeV pm.theta pm.padeOrderCl).2))).num, c.isFiniteb = true := by
    simp only [tfMul]
    apply conv_mem_finite
    · intro a ha
      simp at ha
      rw [ha, hk]
      rfl
    · intro b hb
      rw [hth] at hb
      simp only [padeV] at hb
      rcases List.mem_map.1 hb with ⟨q, _, rfl⟩
      rfl
  simp only [simulateClosedLoop]
  rw [if_neg hguard, hres1]
  simp only [hgc]
  rw [hsr _ _ (hnum _ hgpfin)]
  have hyfr : (Vq.fin sv).sub (Vq.fin yv) = Vq.fin (sv - yv) := by
    simp [Vq.sub, Vq.add, Vq.neg, sub_eq_add_neg]
  have hmul0 : (Vq.fin (sv - yv)).mul (Vq.fin 0) = Vq.fin 0 := by
    simp [Vq.mul]
  constructor
  · simp [hgc]
  · simp [Vq.isFiniteb, hy0, hyfr, hmul0, List.map_replicate]

/-- A closed-loop response engine that returns the zero response exactly
on zero-numerator systems (used as concrete witness input). -/
def srZeroNum : SRCl := fun tf tv =>
  if tf.num.all (fun c => c = Vq.fin 0) then
    List.replicate tv.length (Vq.fin 0)
  else List.replicate tv.length Vq.nan

/-- Witness for C9 on a loaded two-sample dataset. -/
theorem zero_pid_override_zero_response_witness :
    (simulateClosedLoop srZeroNum pmCl (Vq.fin 1) (some (Vq.fin 0))
        (some (Vq.fin 0)) (some (Vq.fin 0))).2
      = some (tArr pmCl, List.replicate (tArr pmCl).length (Vq.fin 0),
          calculateMetrics (tArr pmCl)
            (List.replicate (tArr pmCl).length (Vq.fin 0))
            (Vq.fin (1 - 0))) := by
  have hsr0 : ∀ tf tvec, (∀ c ∈ TF.num tf, c = Vq.fin 0) →
      srZeroNum tf tvec = List.replicate tvec.length (Vq.fin 0) := by
    intro tf tvec hz
    have hcond : (tf.num.all fun c => decide (c = Vq.fin 0)) = true := by
      simp only [List.all_eq_true]
      intro c hc
      simp [hz c hc]
    unfold srZeroNum
    rw [if_pos hcond]
  exact (zero_pid_override_zero_response srZeroNum pmCl 1 1 0 0 1
    rfl rfl rfl rfl rfl hsr0).2

/-! ### Theorems about the tuning calculator -/

/-- C2: on every state passing the source's validity test, each of the
six recognised methods returns exactly the closed-form triple of the
spec's tuning table (with the IMC lambda defaulting to `1.0` when omitted
or non-positive), and on every state failing it the degenerate
`(0, 0, 0)` triple is returned for any method. -/
theorem tuning_matches_spec_table (st : TS) (lambdaVal : Option Rv) :
    (∀ m : TuneMethod, TuneValid st →
        (calculatePidTuning st (codeName m) lambdaVal).2
          = specPidTable m st.k st.tau st.theta (effLambda lambdaVal))
    ∧ (¬ TuneValid st → ∀ s, (calculatePidTuning st s lambdaVal).2
          = (Rv.fin 0, Rv.fin 0, Rv.fin 0)) := by
  constructor
  · intro m hv
    cases m <;>
      simp [calculatePidTuning, specPidTable, codeName, effLambda, hv]
  · intro hv s
    simp [calculatePidTuning, hv]

/-- A valid tuning state `k = tau = theta = 1` (concrete witness
input). -/
def stValid : TS :=
  TS.mk (Rv.fin 1) (Rv.fin 1) (Rv.fin 1) (Rv.fin 0) (Rv.fin 0) (Rv.fin 0)

/-- The witness state passes the validity test. -/
theorem stValid_tuneValid : TuneValid stValid :=
  ⟨trivial, one_pos, zero_le_one, one_ne_zero⟩

/-- Witness for C2 at the IMC method with an omitted lambda. -/
theorem tuning_matches_spec_table_witness :
    (calculatePidTuning stValid "IMC" none).2
      = specPidTable TuneMethod.imc stValid.k stValid.tau stValid.theta
          (effLambda none) :=
  (tuning_matches_spec_table stValid none).1 TuneMethod.imc stValid_tuneValid

/-- C8: ITAE tuning at `theta = 0` (with finite `tau > 0` and finite
`k != 0`) produces a non-finite `Kp` — the power `(theta/tau) ** -0.85`
evaluates to `inf` at zero — and the calculator stores and returns it
rather than raising. -/
theorem itae_theta_zero_nonfinite_kp (st : TS) (tv kv : ℝ)
    (htau : st.tau = Rv.fin tv) (htv : 0 < tv) (hth : st.theta = Rv.fin 0)
    (hk : st.k = Rv.fin kv) (hkv : kv ≠ 0) :
    ¬ ((calculatePidTuning st "ITAE" none).2.1).IsFinite
    ∧ (calculatePidTuning st "ITAE" none).1.Kp
        = (calculatePidTuning st "ITAE" none).2.1 := by
  have hv : TuneValid st :=
    ⟨by rw [hk]; trivial, by rw [htau]; exact htv,
     by rw [hth]; exact le_rfl, by rw [hk]; exact hkv⟩
  have hnv : ¬ ¬ TuneValid st := not_not_intro hv
  constructor
  · simp only [calculatePidTuning, if_neg hnv]
    rw [if_neg (show ("ITAE" : String) ≠ "Ziegler-Nichols MA" by decide),
      if_neg (show ("ITAE" : String) ≠ "IMC" by decide),
      if_neg (show ("ITAE" : String) ≠ "CHR sem Sobressinal" by decide),
      if_neg (show ("ITAE" : String) ≠ "CHR com Sobressinal" by decide),
      if_pos trivial]
    rw [hth, htau, hk]
    have hr : (Rv.fin (0 : ℝ)).div (Rv.fin tv) = Rv.fin 0 := by
      simp [Rv.div, htv.ne']
    have hpow : (Rv.fin (0 : ℝ)).rpowV itaeB = Rv.inf := by
      simp only [Rv.rpowV]
      rw [if_neg (lt_irrefl 0), if_pos trivial,
        if_neg (by norm_num [itaeB]), if_neg (by norm_num [itaeB])]
    have hdiv : (Rv.fin itaeA).div (Rv.fin kv) = Rv.fin (itaeA / kv) := by
      simp [Rv.div, hkv]
    simp only [hr, hpow, hdiv]
    have hc : itaeA / kv ≠ 0 := div_ne_zero (by norm_num [itaeA]) hkv
    rcases lt_or_gt_of_ne hc with hlt | hgt
    · simp only [Rv.mul]
      rw [if_neg (by linarith), if_pos hlt]
      simp [Rv.IsFinite]
    · simp only [Rv.mul]
      rw [if_pos hgt]
      simp [Rv.IsFinite]
  · simp only [calculatePidTuning, if_neg hnv]

/-- A valid tuning state with zero delay (concrete witness input). -/
def st8 : TS :=
  TS.mk (Rv.fin 1) (Rv.fin 1) (Rv.fin 0) (Rv.fin 0) (Rv.fin 0) (Rv.fin 0)

/-- Witness for C8 at `k = tau = 1`, `theta = 0`. -/
theorem itae_theta_zero_nonfinite_kp_witness :
    ¬ ((calculatePidTuning st8 "ITAE" none).2.1).IsFinite :=
  (itae_theta_zero_nonfinite_kp st8 1 1 rfl one_pos rfl rfl one_ne_zero).1

/-- C10: on a valid state, every method string outside the six recognised
names yields the `(nan, nan, nan)` triple, stored as the current gains
rather than raising or retaining the previous gains. -/
theorem unknown_method_nan_triple (st : TS) (m : String)
    (lambdaVal : Option Rv) (hv : TuneValid st)
    (hm : m ∉ ["Ziegler-Nichols MA", "IMC", "CHR sem Sobressinal",
      "CHR com Sobressinal", "ITAE", "Cohen e Coon"]) :
    (calculatePidTuning st m lambdaVal).2 = (Rv.nan, Rv.nan, Rv.nan)
    ∧ (calculatePidTuning st m lambdaVal).1.Kp = Rv.nan
    ∧ (calculatePidTuning st m lambdaVal).1.Ti = Rv.nan
    ∧ (calculatePidTuning st m lambdaVal).1.Td = Rv.nan := by
  simp only [List.mem_cons, List.not_mem_nil, or_false, not_or] at hm
  obtain ⟨h1, h2, h3, h4, h5, h6⟩ := hm
  simp only [calculatePidTuning, if_neg (not_not_intro hv), if_neg h1,
    if_neg h2, if_neg h3, if_neg h4, if_neg h5, if_neg h6]
  simp

/-- Witness for C10 at the unrecognised method string `Foo`. -/
theorem unknown_method_nan_triple_witness :
    (calculatePidTuning stValid "Foo" none).2 = (Rv.nan, Rv.nan, Rv.nan) :=
  (unknown_method_nan_triple stValid "Foo" none stValid_tuneValid
    (by decide)).1

end C213
